import Mathlib

/-
Verification of the go-metrics package (counter, gauge, histogram with
reservoir sampling and R8 percentile estimation).

Shallow embedding conventions:
- float64 values are modelled as exact rationals (ℚ); the claims under
  study are about the algorithm structure, not IEEE rounding.
- int64 fields are modelled as ℤ (the claims never approach overflow).
- the Go map[float64]float64 is modelled as an association list with
  overwrite-on-insert (mapSet) and first-match lookup (mapGet).
- rand.Int63n(s.n) in randomSample.record is modelled as an explicit
  oracle argument r, so every theorem quantifies over all outcomes of
  the random choices.
- Go slice indexing values[i] panics outside [0, len): it is modelled by
  goIndex, which returns none exactly when Go would panic, and functions
  that perform indexing return Option, with none marking a panic.
- sort.Float64s is modelled by insertion sort (sortFloat64s); the lemmas
  sortFloat64s_sorted and sortFloat64s_perm record that it is a sort.
-/

namespace metrics

/-- var defaultSampleSize = 2000 (metrics.go line 42). -/
def defaultSampleSize : ℕ := 2000

/-- Config (metrics.go lines 46-51): only the percentile list. -/
structure Config where
  Percentiles : List ℚ
deriving DecidableEq

/-- Snapshot (metrics.go lines 60-88). -/
structure Snapshot where
  N : ℤ
  Sum : ℚ
  Min : ℚ
  Max : ℚ
  Percentile : List (ℚ × ℚ)
  Last : ℚ
deriving DecidableEq

/-- The Go zero value of Snapshot. -/
def zeroSnapshot : Snapshot :=
  { N := 0, Sum := 0, Min := 0, Max := 0, Percentile := [], Last := 0 }

/-- Go map write m[k] = v: overwrite the binding of k if present, else append. -/
def mapSet : List (ℚ × ℚ) → ℚ → ℚ → List (ℚ × ℚ)
  | [], k, v => [(k, v)]
  | (k0, v0) :: rest, k, v =>
    if k0 = k then (k, v) :: rest else (k0, v0) :: mapSet rest k v

/-- Go map read m[k]. -/
def mapGet : List (ℚ × ℚ) → ℚ → Option ℚ
  | [], _ => none
  | (k0, v0) :: rest, k => if k = k0 then some v0 else mapGet rest k

/-- Go slice read values[i] for a (possibly negative) integer index:
none exactly when Go panics with index out of range. -/
def goIndex (values : List ℚ) (i : ℤ) : Option ℚ :=
  if i < 0 then none else values[i.toNat]?

/-- One iteration of the loops in percentiles (metrics.go lines 296-317):
the estimated value for a single requested rank p, none when the slice
access panics.  n ≥ sampleSize selects nearest rank, otherwise R8.
math.Modf truncates toward zero; in the branch where it is used
1 ≤ pos, so the integer part is ⌊pos⌋. -/
def percentileScore (p : ℚ) (values : List ℚ) (sampleSize : ℕ) : Option ℚ :=
  let n : ℚ := values.length
  if values.length ≥ sampleSize then
    goIndex values (⌈p * n⌉ - 1)
  else
    let pos := p * (n + 1 / 3) + 1 / 3
    if pos < 1 then
      goIndex values 0
    else if pos ≥ n then
      goIndex values ((values.length : ℤ) - 1)
    else
      let k : ℤ := ⌊pos⌋
      let f : ℚ := pos - (k : ℚ)
      match goIndex values (k - 1), goIndex values k with
      | some lower, some upper => some (lower + f * (upper - lower))
      | _, _ => none

/-- The loop of percentiles: builds the scores map, aborting (none) if any
slice access panics. -/
def percentilesGo (values : List ℚ) (sampleSize : ℕ) :
    List ℚ → List (ℚ × ℚ) → Option (List (ℚ × ℚ))
  | [], scores => some scores
  | p :: rest, scores =>
    match percentileScore p values sampleSize with
    | none => none
    | some sc => percentilesGo values sampleSize rest (mapSet scores p sc)

/-- percentiles (metrics.go lines 290-319). -/
def percentiles (ps values : List ℚ) (sampleSize : ℕ) : Option (List (ℚ × ℚ)) :=
  if values.length = 0 ∨ ps.length = 0 then some []
  else percentilesGo values sampleSize ps []

/-- randomSample (metrics.go lines 246-252). -/
structure randomSample where
  sampleSize : ℕ
  n : ℤ
  sum : ℚ
  max : ℚ
  values : List ℚ
deriving DecidableEq

/-- newRandomSample (metrics.go lines 254-260). -/
def newRandomSample (size : ℕ) : randomSample :=
  { sampleSize := size, n := 0, sum := 0, max := 0, values := [] }

/-- randomSample.record (metrics.go lines 262-276).  r is the value the
call rand.Int63n(s.n) returns (an arbitrary oracle here; the library
guarantees 0 ≤ r < s.n after the increment). -/
def randomSample.record (s : randomSample) (r : ℤ) (v : ℚ) : randomSample :=
  let n := s.n + 1
  let sum := s.sum + v
  let values :=
    if s.values.length < s.sampleSize then
      s.values ++ [v]
    else if r < (s.values.length : ℤ) then
      s.values.set r.toNat v
    else
      s.values
  let m := if v > s.max then v else s.max
  { s with n := n, sum := sum, values := values, max := m }

/-- randomSample.reset (metrics.go lines 278-283). -/
def randomSample.reset (s : randomSample) : randomSample :=
  { s with n := 0, sum := 0, max := 0, values := [] }

/-- Record a whole sequence; each element carries the recorded value and
the random oracle value consumed by that record call. -/
def randomSample.recordAll (s : randomSample) : List (ℚ × ℤ) → randomSample
  | [] => s
  | (v, r) :: rest => (s.record r v).recordAll rest

/-- sort.Float64s, ascending. -/
def sortFloat64s (values : List ℚ) : List ℚ :=
  List.insertionSort (· ≤ ·) values

/-- finalizeSnapshot (metrics.go lines 217-240).  Takes the snapshot
under construction, returns the finished snapshot together with the
state of the reservoir after the call; none marks a panic inside
percentiles.  When reset is true Go sorts the live buffer and then
discards it, when reset is false Go sorts a copy; in both cases the
sorted list feeds Min and percentiles, and the reservoir ends up reset
or untouched respectively. -/
def finalizeSnapshot (snapshot : Snapshot) (resv : randomSample)
    (p : List ℚ) (reset : Bool) : Option (Snapshot × randomSample) :=
  if resv.values.length = 0 then
    some (snapshot, resv)
  else
    let values := sortFloat64s resv.values
    match percentiles p values resv.sampleSize with
    | none => none
    | some scores =>
      some ({ snapshot with
                N := resv.n, Sum := resv.sum, Max := resv.max,
                Min := values.headD 0, Percentile := scores },
            if reset then resv.reset else resv)

/-- Counter (metrics.go lines 95-99), the variant whose Add uses atomic
integer operations.  Sequentially, Add is n += 1 and sum += delta. -/
structure Counter where
  n : ℤ
  sum : ℤ
deriving DecidableEq

/-- NewCounter (metrics.go lines 101-105). -/
def NewCounter : Counter := { n := 0, sum := 0 }

/-- Counter.Add (metrics.go lines 107-110). -/
def Counter.Add (c : Counter) (delta : ℤ) : Counter :=
  { c with n := c.n + 1, sum := c.sum + delta }

/-- Counter.Count (metrics.go lines 112-114). -/
def Counter.Count (c : Counter) : ℤ := c.sum

/-- Counter.Snapshot (metrics.go lines 116-128). -/
def Counter.Snapshot (c : Counter) (reset : Bool) : Snapshot × Counter :=
  ({ zeroSnapshot with N := c.n, Sum := (c.sum : ℚ) },
   if reset then { c with n := 0, sum := 0 } else c)

/-- Gauge (metrics.go lines 135-140). -/
structure Gauge where
  percentiles : List ℚ
  resv : randomSample
  last : ℚ
deriving DecidableEq

/-- NewGauge (metrics.go lines 142-148). -/
def NewGauge (cfg : Config) : Gauge :=
  { percentiles := cfg.Percentiles,
    resv := newRandomSample defaultSampleSize,
    last := 0 }

/-- Gauge.Record (metrics.go lines 150-155); r is the random oracle
value consumed by the inner resv.record call. -/
def Gauge.Record (g : Gauge) (r : ℤ) (v : ℚ) : Gauge :=
  { g with last := v, resv := g.resv.record r v }

/-- Gauge.Add (metrics.go lines 157-162). -/
def Gauge.Add (g : Gauge) (r : ℤ) (delta : ℤ) : Gauge :=
  { g with last := g.last + (delta : ℚ),
           resv := g.resv.record r (g.last + (delta : ℚ)) }

/-- Gauge.Last (metrics.go lines 164-169). -/
def Gauge.Last (g : Gauge) : ℚ := g.last

/-- Gauge.Snapshot (metrics.go lines 171-182). -/
def Gauge.Snapshot (g : Gauge) (reset : Bool) : Option (Snapshot × Gauge) :=
  match finalizeSnapshot { zeroSnapshot with Last := g.last } g.resv g.percentiles reset with
  | none => none
  | some (snap, resv) =>
    some (snap, { g with resv := resv, last := if reset then 0 else g.last })

/-- Record a whole sequence into a Gauge. -/
def Gauge.RecordAll (g : Gauge) : List (ℚ × ℤ) → Gauge
  | [] => g
  | (v, r) :: rest => (g.Record r v).RecordAll rest

/-- Histogram (metrics.go lines 189-193). -/
structure Histogram where
  percentiles : List ℚ
  resv : randomSample
deriving DecidableEq

/-- NewHistogram (metrics.go lines 195-201). -/
def NewHistogram (cfg : Config) : Histogram :=
  { percentiles := cfg.Percentiles,
    resv := newRandomSample defaultSampleSize }

/-- Histogram.Record (metrics.go lines 203-207). -/
def Histogram.Record (h : Histogram) (r : ℤ) (v : ℚ) : Histogram :=
  { h with resv := h.resv.record r v }

/-- Histogram.Snapshot (metrics.go lines 209-215). -/
def Histogram.Snapshot (h : Histogram) (reset : Bool) : Option (Snapshot × Histogram) :=
  match finalizeSnapshot zeroSnapshot h.resv h.percentiles reset with
  | none => none
  | some (snap, resv) => some (snap, { h with resv := resv })

/-- Record a whole sequence into a Histogram. -/
def Histogram.RecordAll (h : Histogram) : List (ℚ × ℤ) → Histogram
  | [] => h
  | (v, r) :: rest => (h.Record r v).RecordAll rest

/- ------------------------------------------------------------------
The second Counter variant in the codebase (src/unnamed/part_000,
lines 722-759): identical fields, but Add and Count take the mutex
instead of using atomic integer operations.  Sequentially the bodies
are n += 1, sum += delta, read of sum, and the same Snapshot.
------------------------------------------------------------------- -/

namespace mutexVariant

/-- Counter of the mutex-based variant (part_000 lines 722-726). -/
structure Counter where
  n : ℤ
  sum : ℤ
deriving DecidableEq

/-- NewCounter (part_000 lines 728-732). -/
def NewCounter : Counter := { n := 0, sum := 0 }

/-- Counter.Add (part_000 lines 734-739): under the lock, n += 1 and
sum += delta. -/
def Counter.Add (c : Counter) (delta : ℤ) : Counter :=
  { c with n := c.n + 1, sum := c.sum + delta }

/-- Counter.Count (part_000 lines 741-746): under the lock, read sum. -/
def Counter.Count (c : Counter) : ℤ := c.sum

/-- Counter.Snapshot (part_000 lines 748-759). -/
def Counter.Snapshot (c : Counter) (reset : Bool) : Snapshot × Counter :=
  ({ zeroSnapshot with N := c.n, Sum := (c.sum : ℚ) },
   if reset then { c with n := 0, sum := 0 } else c)

end mutexVariant

/- ------------------------------------------------------------------
Sequential (single-caller) runs of the two Counter variants.
------------------------------------------------------------------- -/

/-- A sequential operation on a Counter. -/
inductive CtrOp where
  | add (delta : ℤ)
  | count
  | snapshot (reset : Bool)
deriving DecidableEq

/-- An observable result of a Counter operation. -/
inductive CtrOut where
  | int (z : ℤ)
  | snap (s : Snapshot)
deriving DecidableEq

/-- Run the atomic-operations Counter (src/metrics.go) on a sequential
program, collecting the values returned by Count and Snapshot. -/
def runCounter : Counter → List CtrOp → List CtrOut
  | _, [] => []
  | c, .add d :: rest => runCounter (c.Add d) rest
  | c, .count :: rest => .int c.Count :: runCounter c rest
  | c, .snapshot b :: rest =>
    .snap (c.Snapshot b).1 :: runCounter (c.Snapshot b).2 rest

/-- Run the mutex-based Counter (part_000) on a sequential program. -/
def runCounterMutex : mutexVariant.Counter → List CtrOp → List CtrOut
  | _, [] => []
  | c, .add d :: rest => runCounterMutex (c.Add d) rest
  | c, .count :: rest => .int c.Count :: runCounterMutex c rest
  | c, .snapshot b :: rest =>
    .snap (c.Snapshot b).1 :: runCounterMutex (c.Snapshot b).2 rest

/- ------------------------------------------------------------------
Interleaving model of the atomic-operations Counter under concurrency.

Counter.Add (metrics.go lines 107-110) performs two separate atomic
instructions without holding the mutex:
    atomic.AddInt64(&c.n, 1); atomic.AddInt64(&c.sum, delta).
Counter.Snapshot (lines 116-128) holds the mutex, which excludes other
Snapshot calls but not concurrent Add steps, so its statements are
modelled as individual steps: read n, read sum (into the snapshot
struct), write n = 0, write sum = 0, return the snapshot.
------------------------------------------------------------------- -/

/-- One atomic machine step of the concurrent Counter model. -/
inductive CtrStep where
  | addN
  | addSum (delta : ℤ)
  | readN
  | readSum
  | clearN
  | clearSum
  | ret
deriving DecidableEq

/-- Machine state: the two int64 fields, the snapshot struct under
construction (regN, regSum), and the list of returned snapshots as
(N, Sum) pairs. -/
structure CtrMachine where
  n : ℤ
  sum : ℤ
  regN : ℤ
  regSum : ℤ
  snaps : List (ℤ × ℤ)
deriving DecidableEq

def ctrInit : CtrMachine := { n := 0, sum := 0, regN := 0, regSum := 0, snaps := [] }

/-- Effect of one step. -/
def ctrStep (m : CtrMachine) : CtrStep → CtrMachine
  | .addN => { m with n := m.n + 1 }
  | .addSum d => { m with sum := m.sum + d }
  | .readN => { m with regN := m.n }
  | .readSum => { m with regSum := m.sum }
  | .clearN => { m with n := 0 }
  | .clearSum => { m with sum := 0 }
  | .ret => { m with snaps := m.snaps ++ [(m.regN, m.regSum)] }

def ctrExec (m : CtrMachine) : List CtrStep → CtrMachine
  | [] => m
  | st :: rest => ctrExec (ctrStep m st) rest

/-- The step sequence of Counter.Add(delta). -/
def ctrAddProg (delta : ℤ) : List CtrStep := [.addN, .addSum delta]

/-- The step sequence of Counter.Snapshot(true). -/
def ctrSnapProg : List CtrStep := [.readN, .readSum, .clearN, .clearSum, .ret]

/-- zs is an interleaving of xs and ys (each kept in program order). -/
def interleaves : List CtrStep → List CtrStep → List CtrStep → Bool
  | [], ys, zs => ys = zs
  | xs, [], zs => xs = zs
  | _ :: _, _ :: _, [] => false
  | x :: xs, y :: ys, z :: zs =>
    (if z = x then interleaves xs (y :: ys) zs else false) ||
    (if z = y then interleaves (x :: xs) ys zs else false)

/- ------------------------------------------------------------------
Definitions written from the words of the specification, for the
refinement-style claims about the quantile estimator and the exact
aggregates.  sortedValues[i] is spec-level total indexing (getD).
------------------------------------------------------------------- -/

/-- Modelled from the spec (section 4.2, nearest-rank regime): index
i = ceil(p * n), result sortedValues[i-1]. -/
def specNearestRank (p : ℚ) (sortedValues : List ℚ) : ℚ :=
  sortedValues.getD (⌈p * (sortedValues.length : ℚ)⌉ - 1).toNat 0

/-- Modelled from the spec (section 4.2, Hyndman-Fan R8 regime):
pos = p*(n + 1/3) + 1/3, clamped to the ends, otherwise linear
interpolation with k = floor(pos) and f = pos - k. -/
def specR8 (p : ℚ) (sortedValues : List ℚ) : ℚ :=
  let n : ℚ := sortedValues.length
  let pos := p * (n + 1 / 3) + 1 / 3
  if pos < 1 then sortedValues.getD 0 0
  else if pos ≥ n then sortedValues.getD (sortedValues.length - 1) 0
  else
    let k : ℤ := ⌊pos⌋
    let f : ℚ := pos - (k : ℚ)
    sortedValues.getD (k - 1).toNat 0 +
      f * (sortedValues.getD k.toNat 0 - sortedValues.getD (k - 1).toNat 0)

/-- Modelled from the spec (section 4.2): nearest rank once the sample
is saturated (n ≥ capacity), R8 otherwise. -/
def specEstimate (p : ℚ) (sortedValues : List ℚ) (capacity : ℕ) : ℚ :=
  if sortedValues.length ≥ capacity then specNearestRank p sortedValues
  else specR8 p sortedValues

/-- The true maximum of a nonempty sequence (0 for the empty one). -/
def trueMax : List ℚ → ℚ
  | [] => 0
  | v :: rest => rest.foldl max v

/-- Left-to-right sum of a sequence of recorded values. -/
def sumValues (l : List ℚ) : ℚ := l.foldl (· + ·) 0

/-- State predicate of the empty-state claim: a positive reservoir
capacity (2000 in this package), and an empty sample forces zero
count, sum and maximum. -/
def emptyZeroSample (s : randomSample) : Prop :=
  0 < s.sampleSize ∧ (s.values = [] → s.n = 0 ∧ s.sum = 0 ∧ s.max = 0)

/-- The gauge version additionally forces last = 0 on an empty sample. -/
def emptyZeroGauge (g : Gauge) : Prop :=
  emptyZeroSample g.resv ∧ (g.resv.values = [] → g.last = 0)

def emptyZeroHistogram (h : Histogram) : Prop :=
  emptyZeroSample h.resv

/-- A concrete interleaving of one Add(5) with two sequential
Snapshot(true) calls: the Add increments n, the snapshot then reads n
and sum, the delta lands on sum, and the clear erases it. -/
def raceSchedule : List CtrStep :=
  [.addN, .readN, .readSum, .addSum 5, .clearN, .clearSum, .ret] ++ ctrSnapProg

end metrics

/- ------------------------------------------------------------------
Helper lemmas.
------------------------------------------------------------------- -/

namespace metrics

theorem record_n (s : randomSample) (r : ℤ) (v : ℚ) :
    (s.record r v).n = s.n + 1 := rfl

theorem record_sum (s : randomSample) (r : ℤ) (v : ℚ) :
    (s.record r v).sum = s.sum + v := rfl

theorem record_sampleSize (s : randomSample) (r : ℤ) (v : ℚ) :
    (s.record r v).sampleSize = s.sampleSize := rfl

theorem record_max (s : randomSample) (r : ℤ) (v : ℚ) :
    (s.record r v).max = max s.max v := by
  show (if v > s.max then v else s.max) = max s.max v
  rcases lt_or_le s.max v with h | h
  · rw [if_pos h, max_eq_right h.le]
  · rw [if_neg (not_lt.mpr h), max_eq_left h]

theorem record_values_length_pos (s : randomSample) (r : ℤ) (v : ℚ)
    (hs : 0 < s.sampleSize) : 0 < (s.record r v).values.length := by
  show 0 < (if s.values.length < s.sampleSize then s.values ++ [v]
            else if r < (s.values.length : ℤ) then s.values.set r.toNat v
            else s.values).length
  by_cases hlt : s.values.length < s.sampleSize
  · simp [hlt]
  · have hge : s.sampleSize ≤ s.values.length := not_lt.mp hlt
    by_cases hr : r < (s.values.length : ℤ) <;>
      simp [hlt, hr] <;> omega

theorem recordAll_n (l : List (ℚ × ℤ)) : ∀ s : randomSample,
    (s.recordAll l).n = s.n + l.length := by
  induction l with
  | nil => intro s; simp [randomSample.recordAll]
  | cons vr rest ih =>
    intro s
    obtain ⟨v, r⟩ := vr
    rw [randomSample.recordAll, ih, record_n, List.length_cons]
    push_cast
    ring

theorem recordAll_sum (l : List (ℚ × ℤ)) : ∀ s : randomSample,
    (s.recordAll l).sum = (l.map Prod.fst).foldl (· + ·) s.sum := by
  induction l with
  | nil => intro s; simp [randomSample.recordAll]
  | cons vr rest ih =>
    intro s
    obtain ⟨v, r⟩ := vr
    rw [randomSample.recordAll, ih, record_sum]
    rfl

theorem recordAll_max (l : List (ℚ × ℤ)) : ∀ s : randomSample,
    (s.recordAll l).max = (l.map Prod.fst).foldl max s.max := by
  induction l with
  | nil => intro s; simp [randomSample.recordAll]
  | cons vr rest ih =>
    intro s
    obtain ⟨v, r⟩ := vr
    rw [randomSample.recordAll, ih, record_max]
    rfl

theorem recordAll_sampleSize (l : List (ℚ × ℤ)) : ∀ s : randomSample,
    (s.recordAll l).sampleSize = s.sampleSize := by
  induction l with
  | nil => intro s; rfl
  | cons vr rest ih =>
    intro s
    obtain ⟨v, r⟩ := vr
    rw [randomSample.recordAll, ih, record_sampleSize]

theorem recordAll_values_length_pos (l : List (ℚ × ℤ)) : ∀ s : randomSample,
    0 < s.sampleSize → (l ≠ [] ∨ 0 < s.values.length) →
    0 < (s.recordAll l).values.length := by
  induction l with
  | nil =>
    intro s _ h
    rcases h with h | h
    · exact absurd rfl h
    · exact h
  | cons vr rest ih =>
    intro s hs _
    obtain ⟨v, r⟩ := vr
    rw [randomSample.recordAll]
    exact ih _ (by rwa [record_sampleSize]) (Or.inr (record_values_length_pos s r v hs))

theorem foldl_max_comm (l : List ℚ) : ∀ a b : ℚ,
    l.foldl max (max a b) = max a (l.foldl max b) := by
  induction l with
  | nil => intro a b; rfl
  | cons w l ih =>
    intro a b
    rw [List.foldl_cons, List.foldl_cons, max_assoc, ih]

theorem foldl_max_zero (vs : List ℚ) (hvs : vs ≠ []) :
    vs.foldl max 0 = max 0 (trueMax vs) := by
  cases vs with
  | nil => exact absurd rfl hvs
  | cons v rest => rw [List.foldl_cons, foldl_max_comm, trueMax]

theorem init_le_foldl_max (l : List ℚ) : ∀ a : ℚ, a ≤ l.foldl max a := by
  induction l with
  | nil => intro a; exact le_refl a
  | cons w l ih =>
    intro a
    exact le_trans (le_max_left a w) (ih (max a w))

theorem mem_le_foldl_max (l : List ℚ) : ∀ a b : ℚ, b ∈ l → b ≤ l.foldl max a := by
  induction l with
  | nil => intro a b h; cases h
  | cons w l ih =>
    intro a b h
    rcases List.mem_cons.mp h with h | h
    · subst h
      exact le_trans (le_max_right a b) (init_le_foldl_max l (max a b))
    · exact ih (max a w) b h

theorem le_trueMax (vs : List ℚ) (v : ℚ) (h : v ∈ vs) : v ≤ trueMax vs := by
  cases vs with
  | nil => cases h
  | cons w rest =>
    rw [trueMax]
    rcases List.mem_cons.mp h with h | h
    · subst h; exact init_le_foldl_max rest v
    · exact mem_le_foldl_max rest w v h

end metrics

namespace metrics

theorem mapGet_mapSet_self : ∀ (m : List (ℚ × ℚ)) (k v : ℚ),
    mapGet (mapSet m k v) k = some v := by
  intro m
  induction m with
  | nil => intro k v; simp [mapSet, mapGet]
  | cons e rest ih =>
    intro k v
    obtain ⟨k0, v0⟩ := e
    rw [mapSet]
    by_cases h : k0 = k
    · rw [if_pos h, mapGet, if_pos rfl]
    · rw [if_neg h, mapGet, if_neg (fun hh => h hh.symm), ih]

theorem mapGet_mapSet_ne : ∀ (m : List (ℚ × ℚ)) (k v q : ℚ), q ≠ k →
    mapGet (mapSet m k v) q = mapGet m q := by
  intro m
  induction m with
  | nil => intro k v q h; simp [mapSet, mapGet, h]
  | cons e rest ih =>
    intro k v q h
    obtain ⟨k0, v0⟩ := e
    rw [mapSet]
    by_cases h0 : k0 = k
    · subst h0
      rw [if_pos rfl, mapGet, if_neg h, mapGet, if_neg h]
    · rw [if_neg h0, mapGet, mapGet]
      by_cases hq : q = k0
      · rw [if_pos hq, if_pos hq]
      · rw [if_neg hq, if_neg hq, ih _ _ _ h]

theorem percentilesGo_mapGet (values : List ℚ) (cap : ℕ) :
    ∀ (ps : List ℚ) (scores m : List (ℚ × ℚ)),
      percentilesGo values cap ps scores = some m →
      (∀ p ∈ ps, mapGet m p = percentileScore p values cap) ∧
      (∀ q, q ∉ ps → mapGet m q = mapGet scores q) := by
  intro ps
  induction ps with
  | nil =>
    intro scores m h
    rw [percentilesGo] at h
    injection h with h
    subst h
    refine ⟨?_, fun q _ => rfl⟩
    intro p hp
    cases hp
  | cons p rest ih =>
    intro scores m h
    rw [percentilesGo] at h
    cases hsc : percentileScore p values cap with
    | none => rw [hsc] at h; cases h
    | some sc =>
      rw [hsc] at h
      obtain ⟨hmem, hnot⟩ := ih (mapSet scores p sc) m h
      constructor
      · intro q hq
        rcases List.mem_cons.mp hq with hq' | hq'
        · subst hq'
          by_cases hqr : q ∈ rest
          · exact hmem q hqr
          · rw [hnot q hqr, mapGet_mapSet_self, hsc]
        · exact hmem q hq'
      · intro q hq
        have hqp : q ≠ p := fun he => hq (he ▸ List.mem_cons_self p rest)
        have hqr : q ∉ rest := fun hm => hq (List.mem_cons_of_mem p hm)
        rw [hnot q hqr, mapGet_mapSet_ne _ _ _ _ hqp]

theorem percentilesGo_isSome (values : List ℚ) (cap : ℕ) :
    ∀ (ps : List ℚ) (scores : List (ℚ × ℚ)),
      (∀ p ∈ ps, (percentileScore p values cap).isSome) →
      (percentilesGo values cap ps scores).isSome := by
  intro ps
  induction ps with
  | nil => intro scores _; rw [percentilesGo]; rfl
  | cons p rest ih =>
    intro scores hall
    rw [percentilesGo]
    cases hsc : percentileScore p values cap with
    | none =>
      have := hall p (List.mem_cons_self p rest)
      rw [hsc] at this
      cases this
    | some sc =>
      exact ih (mapSet scores p sc) (fun q hq => hall q (List.mem_cons_of_mem p hq))

theorem goIndex_eq (values : List ℚ) (i : ℤ) (h0 : 0 ≤ i) (h1 : i < values.length) :
    goIndex values i = some (values.getD i.toNat 0) := by
  rw [goIndex, if_neg (not_lt.mpr h0)]
  have hlt : i.toNat < values.length := by omega
  rw [List.getElem?_eq_getElem hlt, List.getD_eq_getElem _ _ hlt]

end metrics

namespace metrics

theorem sortFloat64s_sorted (l : List ℚ) :
    List.Sorted (· ≤ ·) (sortFloat64s l) :=
  List.sorted_insertionSort (· ≤ ·) l

theorem sortFloat64s_perm (l : List ℚ) : (sortFloat64s l).Perm l :=
  List.perm_insertionSort (· ≤ ·) l

theorem sortFloat64s_length (l : List ℚ) : (sortFloat64s l).length = l.length :=
  (sortFloat64s_perm l).length_eq

/-- The source estimator agrees with the estimator written from the
words of the specification on every in-range rank and nonempty list:
in particular no slice access panics there. -/
theorem percentileScore_eq_spec (p : ℚ) (values : List ℚ) (cap : ℕ)
    (hne : values ≠ []) (hp0 : 0 < p) (hp1 : p ≤ 1) :
    percentileScore p values cap = some (specEstimate p values cap) := by
  have hlen : 0 < values.length := List.length_pos.mpr hne
  have hnq : (0 : ℚ) < (values.length : ℚ) := by exact_mod_cast hlen
  simp only [percentileScore, specEstimate]
  by_cases hreg : values.length ≥ cap
  · simp only [if_pos hreg, specNearestRank]
    have hceil_pos : 0 < ⌈p * (values.length : ℚ)⌉ :=
      Int.ceil_pos.mpr (mul_pos hp0 hnq)
    have hceil_le : ⌈p * (values.length : ℚ)⌉ ≤ (values.length : ℤ) := by
      refine Int.ceil_le.mpr ?_
      push_cast
      exact mul_le_of_le_one_left (le_of_lt hnq) hp1
    exact goIndex_eq values _ (by omega) (by omega)
  · simp only [if_neg hreg, specR8]
    by_cases h1 : p * ((values.length : ℚ) + 1 / 3) + 1 / 3 < 1
    · simp only [if_pos h1]
      exact goIndex_eq values 0 le_rfl (by exact_mod_cast hlen)
    · simp only [if_neg h1]
      by_cases h2 : p * ((values.length : ℚ) + 1 / 3) + 1 / 3 ≥ (values.length : ℚ)
      · simp only [if_pos h2]
        rw [goIndex_eq values ((values.length : ℤ) - 1) (by omega) (by omega)]
        congr 2
        omega
      · simp only [if_neg h2]
        have hp1' : (1 : ℚ) ≤ p * ((values.length : ℚ) + 1 / 3) + 1 / 3 :=
          not_lt.mp h1
        have hp2' : p * ((values.length : ℚ) + 1 / 3) + 1 / 3 < (values.length : ℚ) :=
          not_le.mp h2
        have hk1 : 1 ≤ ⌊p * ((values.length : ℚ) + 1 / 3) + 1 / 3⌋ :=
          Int.le_floor.mpr (by exact_mod_cast hp1')
        have hk2 : ⌊p * ((values.length : ℚ) + 1 / 3) + 1 / 3⌋ < (values.length : ℤ) :=
          Int.floor_lt.mpr (by push_cast; exact hp2')
        rw [goIndex_eq values _ (by omega) (by omega),
            goIndex_eq values (⌊p * ((values.length : ℚ) + 1 / 3) + 1 / 3⌋) (by omega) (by omega)]

/-- With exactly one sampled value and an unsaturated reservoir the
estimator returns that value for every rank: the interpolation branch
is unreachable when n = 1. -/
theorem percentileScore_singleton (p v : ℚ) (cap : ℕ) (hcap : 1 < cap) :
    percentileScore p [v] cap = some v := by
  simp only [percentileScore, List.length_singleton, Nat.cast_one]
  rw [if_neg (by omega)]
  by_cases h : p * (1 + 1 / 3 : ℚ) + 1 / 3 < 1
  · rw [if_pos h]; rfl
  · rw [if_neg h, if_pos (not_lt.mp h)]; rfl

end metrics

namespace metrics

theorem finalizeSnapshot_empty (snapshot : Snapshot) (resv : randomSample)
    (p : List ℚ) (reset : Bool) (h : resv.values = []) :
    finalizeSnapshot snapshot resv p reset = some (snapshot, resv) := by
  rw [finalizeSnapshot, if_pos (by rw [h]; rfl)]

theorem finalizeSnapshot_some_elim (snapshot : Snapshot) (resv : randomSample)
    (p : List ℚ) (reset : Bool) (snap : Snapshot) (resv' : randomSample)
    (h : resv.values ≠ [])
    (heq : finalizeSnapshot snapshot resv p reset = some (snap, resv')) :
    ∃ scores, percentiles p (sortFloat64s resv.values) resv.sampleSize = some scores ∧
      snap = Snapshot.mk resv.n resv.sum ((sortFloat64s resv.values).headD 0)
               resv.max scores snapshot.Last ∧
      resv' = (if reset then resv.reset else resv) := by
  have hlen : ¬(resv.values.length = 0) := by simpa using h
  cases hp : percentiles p (sortFloat64s resv.values) resv.sampleSize with
  | none =>
    simp only [finalizeSnapshot, if_neg hlen, hp] at heq
    exact (Option.noConfusion heq)
  | some scores =>
    simp only [finalizeSnapshot, if_neg hlen, hp, Option.some.injEq,
      Prod.mk.injEq] at heq
    obtain ⟨hsnap, hresv⟩ := heq
    exact ⟨scores, rfl, hsnap.symm, hresv.symm⟩

theorem gauge_snapshot_some_elim (g : Gauge) (b : Bool) (snap : Snapshot) (g' : Gauge)
    (heq : g.Snapshot b = some (snap, g')) :
    ∃ resv',
      finalizeSnapshot { zeroSnapshot with Last := g.last } g.resv g.percentiles b =
        some (snap, resv') ∧
      g' = { g with resv := resv', last := if b then 0 else g.last } := by
  rw [Gauge.Snapshot] at heq
  cases hf : finalizeSnapshot { zeroSnapshot with Last := g.last } g.resv g.percentiles b with
  | none => rw [hf] at heq; cases heq
  | some pr =>
    obtain ⟨s2, r2⟩ := pr
    rw [hf] at heq
    simp only [Option.some.injEq, Prod.mk.injEq] at heq
    obtain ⟨hs, hg⟩ := heq
    subst hs
    exact ⟨r2, rfl, hg.symm⟩

theorem histogram_snapshot_some_elim (h : Histogram) (b : Bool) (snap : Snapshot)
    (h' : Histogram) (heq : h.Snapshot b = some (snap, h')) :
    ∃ resv',
      finalizeSnapshot zeroSnapshot h.resv h.percentiles b = some (snap, resv') ∧
      h' = { h with resv := resv' } := by
  rw [Histogram.Snapshot] at heq
  cases hf : finalizeSnapshot zeroSnapshot h.resv h.percentiles b with
  | none => rw [hf] at heq; cases heq
  | some pr =>
    obtain ⟨s2, r2⟩ := pr
    rw [hf] at heq
    simp only [Option.some.injEq, Prod.mk.injEq] at heq
    obtain ⟨hs, hg⟩ := heq
    subst hs
    exact ⟨r2, rfl, hg.symm⟩

theorem gauge_recordAll_resv (l : List (ℚ × ℤ)) : ∀ g : Gauge,
    (g.RecordAll l).resv = g.resv.recordAll l := by
  induction l with
  | nil => intro g; rfl
  | cons vr rest ih =>
    intro g
    obtain ⟨v, r⟩ := vr
    rw [Gauge.RecordAll, ih, randomSample.recordAll]
    rfl

theorem gauge_recordAll_percentiles (l : List (ℚ × ℤ)) : ∀ g : Gauge,
    (g.RecordAll l).percentiles = g.percentiles := by
  induction l with
  | nil => intro g; rfl
  | cons vr rest ih =>
    intro g
    obtain ⟨v, r⟩ := vr
    rw [Gauge.RecordAll, ih]
    rfl

theorem histogram_recordAll_resv (l : List (ℚ × ℤ)) : ∀ h : Histogram,
    (h.RecordAll l).resv = h.resv.recordAll l := by
  induction l with
  | nil => intro h; rfl
  | cons vr rest ih =>
    intro h
    obtain ⟨v, r⟩ := vr
    rw [Histogram.RecordAll, ih, randomSample.recordAll]
    rfl

theorem histogram_recordAll_percentiles (l : List (ℚ × ℤ)) : ∀ h : Histogram,
    (h.RecordAll l).percentiles = h.percentiles := by
  induction l with
  | nil => intro h; rfl
  | cons vr rest ih =>
    intro h
    obtain ⟨v, r⟩ := vr
    rw [Histogram.RecordAll, ih]
    rfl

end metrics

namespace metrics

theorem newGauge_resv (cfg : Config) :
    (NewGauge cfg).resv = newRandomSample defaultSampleSize := rfl

theorem newHistogram_resv (cfg : Config) :
    (NewHistogram cfg).resv = newRandomSample defaultSampleSize := rfl

theorem recordAll_from_new_values_ne_nil (l : List (ℚ × ℤ)) (hl : l ≠ []) :
    ((newRandomSample defaultSampleSize).recordAll l).values ≠ [] := by
  have := recordAll_values_length_pos l (newRandomSample defaultSampleSize)
    (by norm_num [newRandomSample, defaultSampleSize]) (Or.inl hl)
  exact List.ne_nil_of_length_pos this

/-- C2: for every recorded sequence and every outcome of the random
choices, a successful Snapshot of a Gauge or Histogram reports N equal
to the number of records and Sum equal to the left-to-right sum of the
recorded values. -/
theorem snapshot_exact_aggregates (cfg : Config) (l : List (ℚ × ℤ)) (b : Bool) :
    (∀ snap g', ((NewGauge cfg).RecordAll l).Snapshot b = some (snap, g') →
      snap.N = l.length ∧ snap.Sum = sumValues (l.map Prod.fst)) ∧
    (∀ snap h', ((NewHistogram cfg).RecordAll l).Snapshot b = some (snap, h') →
      snap.N = l.length ∧ snap.Sum = sumValues (l.map Prod.fst)) := by
  have hn : ((newRandomSample defaultSampleSize).recordAll l).n = l.length := by
    rw [recordAll_n]; simp [newRandomSample]
  have hsum : ((newRandomSample defaultSampleSize).recordAll l).sum =
      sumValues (l.map Prod.fst) := by
    rw [recordAll_sum]; rfl
  constructor
  · intro snap g' heq
    by_cases hl : l = []
    · subst hl
      rw [Gauge.RecordAll, Gauge.Snapshot,
        finalizeSnapshot_empty _ _ _ _ rfl] at heq
      simp only [Option.some.injEq, Prod.mk.injEq] at heq
      obtain ⟨hs, _⟩ := heq
      subst hs
      exact ⟨rfl, rfl⟩
    · have hvals : ((NewGauge cfg).RecordAll l).resv.values ≠ [] := by
        rw [gauge_recordAll_resv, newGauge_resv]
        exact recordAll_from_new_values_ne_nil l hl
      obtain ⟨resv', hfin, hg'⟩ := gauge_snapshot_some_elim _ _ _ _ heq
      obtain ⟨scores, hsc, hsnap, hresv⟩ :=
        finalizeSnapshot_some_elim _ _ _ _ _ _ hvals hfin
      subst hsnap
      refine ⟨?_, ?_⟩
      · show ((NewGauge cfg).RecordAll l).resv.n = (l.length : ℤ)
        rw [gauge_recordAll_resv, newGauge_resv, hn]
      · show ((NewGauge cfg).RecordAll l).resv.sum = sumValues (l.map Prod.fst)
        rw [gauge_recordAll_resv, newGauge_resv, hsum]
  · intro snap h' heq
    by_cases hl : l = []
    · subst hl
      rw [Histogram.RecordAll, Histogram.Snapshot,
        finalizeSnapshot_empty _ _ _ _ rfl] at heq
      simp only [Option.some.injEq, Prod.mk.injEq] at heq
      obtain ⟨hs, _⟩ := heq
      subst hs
      exact ⟨rfl, rfl⟩
    · have hvals : ((NewHistogram cfg).RecordAll l).resv.values ≠ [] := by
        rw [histogram_recordAll_resv, newHistogram_resv]
        exact recordAll_from_new_values_ne_nil l hl
      obtain ⟨resv', hfin, hh'⟩ := histogram_snapshot_some_elim _ _ _ _ heq
      obtain ⟨scores, hsc, hsnap, hresv⟩ :=
        finalizeSnapshot_some_elim _ _ _ _ _ _ hvals hfin
      subst hsnap
      refine ⟨?_, ?_⟩
      · show ((NewHistogram cfg).RecordAll l).resv.n = (l.length : ℤ)
        rw [histogram_recordAll_resv, newHistogram_resv, hn]
      · show ((NewHistogram cfg).RecordAll l).resv.sum = sumValues (l.map Prod.fst)
        rw [histogram_recordAll_resv, newHistogram_resv, hsum]

end metrics

namespace metrics

/-- Witness for C2: two values 2 and 3; the snapshot reports N = 2 and
Sum = 5. -/
theorem snapshot_exact_aggregates_witness :
    (Snapshot.mk 2 5 2 3 [] 3).N = (([((2:ℚ),(0:ℤ)),(3,0)]).length : ℤ) ∧
    (Snapshot.mk 2 5 2 3 [] 3).Sum = sumValues (([((2:ℚ),(0:ℤ)),(3,0)]).map Prod.fst) :=
  (snapshot_exact_aggregates ⟨[]⟩ [(2,0),(3,0)] false).1 (Snapshot.mk 2 5 2 3 [] 3)
    ((NewGauge ⟨[]⟩).RecordAll [(2,0),(3,0)])
    (by norm_num [Gauge.RecordAll, Gauge.Record, Gauge.Snapshot, NewGauge,
      newRandomSample, defaultSampleSize, randomSample.record, finalizeSnapshot,
      sortFloat64s, List.insertionSort, List.orderedInsert, percentiles,
      zeroSnapshot])

/-- C1 counterexample: after recording the single value -1, the snapshot
reports Max = 0, but the true maximum of the recorded sequence is -1:
the running maximum starts at the zero value and only moves up. -/
theorem gauge_max_counterexample :
    (((NewGauge ⟨[]⟩).Record 0 (-1)).Snapshot true).map (fun pr => pr.1.Max) = some 0 ∧
    trueMax [-1] = -1 ∧ ¬ ((0 : ℚ) = -1) := by
  refine ⟨?_, rfl, by norm_num⟩
  norm_num [Gauge.Record, Gauge.Snapshot, NewGauge,
    newRandomSample, defaultSampleSize, randomSample.record, finalizeSnapshot,
    sortFloat64s, List.insertionSort, List.orderedInsert, percentiles,
    zeroSnapshot]

/-- C1 amended: for every nonempty recorded sequence and every outcome of
the random choices (so even when the maximum was evicted from the
reservoir), the Max field of a successful Snapshot equals the maximum of
0 and the true maximum of the sequence; in particular it equals the true
maximum whenever some recorded value is nonnegative. -/
theorem snapshot_true_max (cfg : Config) (l : List (ℚ × ℤ)) (b : Bool) (hl : l ≠ []) :
    (∀ snap g', ((NewGauge cfg).RecordAll l).Snapshot b = some (snap, g') →
      snap.Max = max 0 (trueMax (l.map Prod.fst)) ∧
      (∀ v ∈ l.map Prod.fst, 0 ≤ v → snap.Max = trueMax (l.map Prod.fst))) ∧
    (∀ snap h', ((NewHistogram cfg).RecordAll l).Snapshot b = some (snap, h') →
      snap.Max = max 0 (trueMax (l.map Prod.fst)) ∧
      (∀ v ∈ l.map Prod.fst, 0 ≤ v → snap.Max = trueMax (l.map Prod.fst))) := by
  have hvs : l.map Prod.fst ≠ [] := by simpa using hl
  have hmax : ((newRandomSample defaultSampleSize).recordAll l).max =
      max 0 (trueMax (l.map Prod.fst)) := by
    rw [recordAll_max]
    exact foldl_max_zero (l.map Prod.fst) hvs
  have habs : ∀ v ∈ l.map Prod.fst, 0 ≤ v →
      max 0 (trueMax (l.map Prod.fst)) = trueMax (l.map Prod.fst) := by
    intro v hv h0
    exact max_eq_right (le_trans h0 (le_trueMax _ v hv))
  constructor
  · intro snap g' heq
    have hvals : ((NewGauge cfg).RecordAll l).resv.values ≠ [] := by
      rw [gauge_recordAll_resv, newGauge_resv]
      exact recordAll_from_new_values_ne_nil l hl
    obtain ⟨resv', hfin, hg'⟩ := gauge_snapshot_some_elim _ _ _ _ heq
    obtain ⟨scores, hsc, hsnap, hresv⟩ :=
      finalizeSnapshot_some_elim _ _ _ _ _ _ hvals hfin
    subst hsnap
    have hM : ((NewGauge cfg).RecordAll l).resv.max = max 0 (trueMax (l.map Prod.fst)) := by
      rw [gauge_recordAll_resv, newGauge_resv, hmax]
    exact ⟨hM, fun v hv h0 => hM.trans (habs v hv h0)⟩
  · intro snap h' heq
    have hvals : ((NewHistogram cfg).RecordAll l).resv.values ≠ [] := by
      rw [histogram_recordAll_resv, newHistogram_resv]
      exact recordAll_from_new_values_ne_nil l hl
    obtain ⟨resv', hfin, hh'⟩ := histogram_snapshot_some_elim _ _ _ _ heq
    obtain ⟨scores, hsc, hsnap, hresv⟩ :=
      finalizeSnapshot_some_elim _ _ _ _ _ _ hvals hfin
    subst hsnap
    have hM : ((NewHistogram cfg).RecordAll l).resv.max =
        max 0 (trueMax (l.map Prod.fst)) := by
      rw [histogram_recordAll_resv, newHistogram_resv, hmax]
    exact ⟨hM, fun v hv h0 => hM.trans (habs v hv h0)⟩

/-- Witness for the amended C1: a single recorded value 5 gives Max = 5. -/
theorem snapshot_true_max_witness :
    (Snapshot.mk 1 5 5 5 [] 5).Max = max 0 (trueMax ([((5:ℚ),(0:ℤ))].map Prod.fst)) ∧
    (∀ v ∈ [((5:ℚ),(0:ℤ))].map Prod.fst, 0 ≤ v →
      (Snapshot.mk 1 5 5 5 [] 5).Max = trueMax ([((5:ℚ),(0:ℤ))].map Prod.fst)) :=
  (snapshot_true_max ⟨[]⟩ [(5,0)] true (by simp)).1 (Snapshot.mk 1 5 5 5 [] 5)
    (NewGauge ⟨[]⟩)
    (by norm_num [Gauge.RecordAll, Gauge.Record, Gauge.Snapshot, NewGauge,
      newRandomSample, defaultSampleSize, randomSample.record, finalizeSnapshot,
      sortFloat64s, List.insertionSort, List.orderedInsert, percentiles,
      zeroSnapshot, randomSample.reset])

end metrics

namespace metrics

/-- C3: on a nonempty sorted list, for every rank in (0, 1], the source
estimator returns exactly the value described by the specification:
nearest rank sortedValues[ceil(p n) - 1] when n is at least the
capacity, otherwise the R8 rule with clamping at the two ends and
linear interpolation between the bracketing order statistics. -/
theorem percentileScore_correct (p : ℚ) (values : List ℚ) (capacity : ℕ)
    (hne : values ≠ []) (hsorted : List.Sorted (· ≤ ·) values)
    (hp0 : 0 < p) (hp1 : p ≤ 1) :
    percentileScore p values capacity = some (specEstimate p values capacity) :=
  percentileScore_eq_spec p values capacity hne hp0 hp1

/-- Witness for C3: rank 1/2 over the sorted list [1, 2, 3] with
capacity 2 (nearest-rank regime). -/
theorem percentileScore_correct_witness :
    percentileScore (1/2) [(1:ℚ), 2, 3] 2 = some (specEstimate (1/2) [(1:ℚ), 2, 3] 2) :=
  percentileScore_correct (1/2) [(1:ℚ), 2, 3] 2 (by simp)
    (by norm_num [List.sorted_cons]) (by norm_num) (by norm_num)

/-- C10: for ranks in (0, 1] and a nonempty list, no slice access of the
estimator panics: the single-rank estimator and the whole percentiles
map construction both return some. -/
theorem percentile_index_safety (p : ℚ) (values : List ℚ) (capacity : ℕ)
    (ps : List ℚ) (hp0 : 0 < p) (hp1 : p ≤ 1) (hne : values ≠ [])
    (hps : ∀ q ∈ ps, 0 < q ∧ q ≤ 1) :
    (percentileScore p values capacity).isSome = true ∧
    (percentiles ps values capacity).isSome = true := by
  constructor
  · rw [percentileScore_eq_spec p values capacity hne hp0 hp1]
    rfl
  · rw [percentiles]
    by_cases h : values.length = 0 ∨ ps.length = 0
    · rw [if_pos h]
      rfl
    · rw [if_neg h]
      refine percentilesGo_isSome values capacity ps [] ?_
      intro q hq
      rw [percentileScore_eq_spec q values capacity hne (hps q hq).1 (hps q hq).2]
      rfl

/-- Witness for C10 at rank 1/2, list [1, 2, 3], capacity 2, and the
requested-rank list [1]. -/
theorem percentile_index_safety_witness :
    (percentileScore (1/2) [(1:ℚ), 2, 3] 2).isSome = true ∧
    (percentiles [(1:ℚ)] [(1:ℚ), 2, 3] 2).isSome = true :=
  percentile_index_safety (1/2) [(1:ℚ), 2, 3] 2 [(1:ℚ)]
    (by norm_num) (by norm_num) (by simp) (by norm_num)

/-- C4: the nearest-rank branch has no special case for rank p = 0.
The code computes i = ceil(0 * n) = 0 and reads values[i-1] = values[-1],
which panics in Go (modelled as none), instead of returning the minimum;
the estimator modelled from the words of the spec returns the minimum 1
at the same input. -/
theorem nearest_rank_p_zero_panics :
    percentileScore 0 [(1:ℚ), 2] 2 = none ∧
    percentiles [0] [(1:ℚ), 2] 2 = none ∧
    specNearestRank 0 [(1:ℚ), 2] = 1 := by
  refine ⟨?_, ?_, ?_⟩
  · norm_num [percentileScore, goIndex]
  · norm_num [percentiles, percentilesGo, percentileScore, goIndex]
  · norm_num [specNearestRank]
    rfl

/-- C5: after recording exactly one value into a fresh Gauge or
Histogram whose configured ranks all lie in [0, 1], every configured
rank of a successful Snapshot maps to that value. -/
theorem single_value_all_percentiles (cfg : Config) (r : ℤ) (v : ℚ) (b : Bool)
    (hcfg : ∀ p ∈ cfg.Percentiles, 0 ≤ p ∧ p ≤ 1) :
    (∀ snap g', ((NewGauge cfg).Record r v).Snapshot b = some (snap, g') →
      ∀ p ∈ cfg.Percentiles, mapGet snap.Percentile p = some v) ∧
    (∀ snap h', ((NewHistogram cfg).Record r v).Snapshot b = some (snap, h') →
      ∀ p ∈ cfg.Percentiles, mapGet snap.Percentile p = some v) := by
  have hval : ((newRandomSample defaultSampleSize).record r v).values = [v] := rfl
  have hsort : sortFloat64s [v] = [v] := rfl
  have hscores : ∀ scores,
      percentiles cfg.Percentiles [v] defaultSampleSize = some scores →
      ∀ p ∈ cfg.Percentiles, mapGet scores p = some v := by
    intro scores hsc p hp
    rw [percentiles] at hsc
    by_cases hps : cfg.Percentiles.length = 0
    · rw [List.length_eq_zero] at hps
      rw [hps] at hp
      cases hp
    · rw [if_neg (by push_neg; exact ⟨by simp, hps⟩)] at hsc
      have := (percentilesGo_mapGet [v] defaultSampleSize cfg.Percentiles [] scores hsc).1 p hp
      rw [this, percentileScore_singleton]
      norm_num [defaultSampleSize]
  constructor
  · intro snap g' heq
    obtain ⟨resv', hfin, hg'⟩ := gauge_snapshot_some_elim _ _ _ _ heq
    have hvne : ((NewGauge cfg).Record r v).resv.values ≠ [] := by
      show ((newRandomSample defaultSampleSize).record r v).values ≠ []
      rw [hval]
      simp
    obtain ⟨scores, hsc, hsnap, hresv⟩ :=
      finalizeSnapshot_some_elim _ _ _ _ _ _ hvne hfin
    subst hsnap
    intro p hp
    show mapGet scores p = some v
    have hsc' : percentiles cfg.Percentiles [v] defaultSampleSize = some scores := by
      have hv2 : ((NewGauge cfg).Record r v).resv.values = [v] := hval
      rw [hv2, hsort] at hsc
      exact hsc
    exact hscores scores hsc' p hp
  · intro snap h' heq
    obtain ⟨resv', hfin, hh'⟩ := histogram_snapshot_some_elim _ _ _ _ heq
    have hvne : ((NewHistogram cfg).Record r v).resv.values ≠ [] := by
      show ((newRandomSample defaultSampleSize).record r v).values ≠ []
      rw [hval]
      simp
    obtain ⟨scores, hsc, hsnap, hresv⟩ :=
      finalizeSnapshot_some_elim _ _ _ _ _ _ hvne hfin
    subst hsnap
    intro p hp
    show mapGet scores p = some v
    have hsc' : percentiles cfg.Percentiles [v] defaultSampleSize = some scores := by
      have hv2 : ((NewHistogram cfg).Record r v).resv.values = [v] := hval
      rw [hv2, hsort] at hsc
      exact hsc
    exact hscores scores hsc' p hp

/-- Witness for C5: one value 7 with ranks 0, 1/2, 1: every rank maps
to 7 (shown here at rank 1/2). -/
theorem single_value_all_percentiles_witness :
    mapGet [((0:ℚ), (7:ℚ)), (1/2, 7), (1, 7)] (1/2) = some 7 :=
  (single_value_all_percentiles ⟨[0, 1/2, 1]⟩ 0 7 true (by norm_num)).1
    (Snapshot.mk 1 7 7 7 [((0:ℚ), (7:ℚ)), (1/2, 7), (1, 7)] 7) (NewGauge ⟨[0, 1/2, 1]⟩)
    (by norm_num [Gauge.Record, Gauge.Snapshot, NewGauge,
      newRandomSample, defaultSampleSize, randomSample.record, finalizeSnapshot,
      sortFloat64s, List.insertionSort, List.orderedInsert, percentiles,
      percentilesGo, percentileScore, goIndex, mapSet, zeroSnapshot,
      randomSample.reset])
    (1/2) (by norm_num)

end metrics

namespace metrics

/-- C7: a fresh Counter, Gauge, or Histogram, or one drained by a
Snapshot(true), answers every later Snapshot with the all-zero
snapshot, and the predicate (empty sample implies zero count, sum, max
and last) holds initially and is preserved by every operation. -/
theorem empty_state_zero_snapshots (cfg : Config) :
    emptyZeroGauge (NewGauge cfg) ∧
    emptyZeroHistogram (NewHistogram cfg) ∧
    (∀ (g : Gauge) r v, emptyZeroGauge g → emptyZeroGauge (g.Record r v)) ∧
    (∀ (g : Gauge) r d, emptyZeroGauge g → emptyZeroGauge (g.Add r d)) ∧
    (∀ (g : Gauge) b snap g', emptyZeroGauge g → g.Snapshot b = some (snap, g') →
      emptyZeroGauge g') ∧
    (∀ (g : Gauge) b, emptyZeroGauge g → g.resv.values = [] →
      g.Snapshot b = some (zeroSnapshot, g)) ∧
    (∀ (h : Histogram) r v, emptyZeroHistogram h → emptyZeroHistogram (h.Record r v)) ∧
    (∀ (h : Histogram) b snap h', emptyZeroHistogram h →
      h.Snapshot b = some (snap, h') → emptyZeroHistogram h') ∧
    (∀ (h : Histogram) b, emptyZeroHistogram h → h.resv.values = [] →
      h.Snapshot b = some (zeroSnapshot, h)) ∧
    (∀ b, (NewCounter.Snapshot b).1 = zeroSnapshot) ∧
    (∀ (c : Counter) b, (((c.Snapshot true).2).Snapshot b).1 = zeroSnapshot) := by
  have hfresh : emptyZeroSample (newRandomSample defaultSampleSize) :=
    ⟨by norm_num [newRandomSample, defaultSampleSize], fun _ => ⟨rfl, rfl, rfl⟩⟩
  have hrec : ∀ (s : randomSample) r v, emptyZeroSample s →
      emptyZeroSample (s.record r v) := by
    intro s r v ⟨hsz, _⟩
    refine ⟨by rwa [record_sampleSize], ?_⟩
    intro hemp
    exfalso
    have hpos := record_values_length_pos s r v hsz
    rw [hemp] at hpos
    exact lt_irrefl 0 hpos
  have hreset : ∀ s : randomSample, emptyZeroSample s →
      emptyZeroSample s.reset := by
    intro s ⟨hsz, _⟩
    exact ⟨hsz, fun _ => ⟨rfl, rfl, rfl⟩⟩
  refine ⟨⟨hfresh, fun _ => rfl⟩, hfresh, ?_, ?_, ?_, ?_, ?_, ?_, ?_, ?_, ?_⟩
  · intro g r v ⟨hg, _⟩
    refine ⟨hrec g.resv r v hg, ?_⟩
    intro hemp
    exfalso
    have hpos := record_values_length_pos g.resv r v hg.1
    rw [show (g.Record r v).resv = g.resv.record r v from rfl] at hemp
    rw [hemp] at hpos
    exact lt_irrefl 0 hpos
  · intro g r d ⟨hg, _⟩
    refine ⟨hrec g.resv r _ hg, ?_⟩
    intro hemp
    exfalso
    have hpos := record_values_length_pos g.resv r (g.last + (d : ℚ)) hg.1
    rw [show (g.Add r d).resv = g.resv.record r (g.last + (d : ℚ)) from rfl] at hemp
    rw [hemp] at hpos
    exact lt_irrefl 0 hpos
  · intro g b snap g' hg heq
    obtain ⟨resv', hfin, hg'⟩ := gauge_snapshot_some_elim _ _ _ _ heq
    by_cases hv : g.resv.values = []
    · rw [finalizeSnapshot_empty _ _ _ _ hv] at hfin
      simp only [Option.some.injEq, Prod.mk.injEq] at hfin
      obtain ⟨_, hresv⟩ := hfin
      subst hg'
      refine ⟨by rw [← hresv]; exact hg.1, ?_⟩
      intro _
      cases b
      · show g.last = 0
        exact hg.2 hv
      · rfl
    · obtain ⟨scores, hsc, hsnap, hresv⟩ :=
        finalizeSnapshot_some_elim _ _ _ _ _ _ hv hfin
      subst hg'
      subst hresv
      cases b
      · refine ⟨hg.1, ?_⟩
        intro hemp
        exact absurd hemp hv
      · exact ⟨hreset g.resv hg.1, fun _ => rfl⟩
  · intro g b hg hv
    obtain ⟨gp, gr, gl⟩ := g
    have hlast : gl = 0 := hg.2 hv
    subst hlast
    rw [Gauge.Snapshot, finalizeSnapshot_empty _ _ _ _ hv]
    cases b <;> rfl
  · intro h r v hh
    exact hrec h.resv r v hh
  · intro h b snap h' hh heq
    obtain ⟨resv', hfin, hh'⟩ := histogram_snapshot_some_elim _ _ _ _ heq
    by_cases hv : h.resv.values = []
    · rw [finalizeSnapshot_empty _ _ _ _ hv] at hfin
      simp only [Option.some.injEq, Prod.mk.injEq] at hfin
      obtain ⟨_, hresv⟩ := hfin
      subst hh'
      rw [← hresv]
      exact hh
    · obtain ⟨scores, hsc, hsnap, hresv⟩ :=
        finalizeSnapshot_some_elim _ _ _ _ _ _ hv hfin
      subst hh'
      subst hresv
      cases b
      · exact hh
      · exact hreset h.resv hh
  · intro h b hh hv
    obtain ⟨hp, hr⟩ := h
    rw [Histogram.Snapshot, finalizeSnapshot_empty _ _ _ _ hv]
  · intro b
    simp [Counter.Snapshot, NewCounter, zeroSnapshot]
  · intro c b
    simp [Counter.Snapshot, zeroSnapshot]

/-- Witness for C7: the fresh gauge is drained to the all-zero
snapshot, and a fresh Counter snapshot is all-zero. -/
theorem empty_state_zero_snapshots_witness :
    (NewGauge ⟨[]⟩).Snapshot true = some (zeroSnapshot, NewGauge ⟨[]⟩) ∧
    (NewCounter.Snapshot false).1 = zeroSnapshot := by
  have h := empty_state_zero_snapshots ⟨[]⟩
  exact ⟨h.2.2.2.2.2.1 (NewGauge ⟨[]⟩) true h.1 rfl,
         h.2.2.2.2.2.2.2.2.2.1 false⟩

/-- C8: Snapshot(false) leaves the whole metric state unchanged, so an
immediately repeated Snapshot(false) returns the identical snapshot. -/
theorem snapshot_false_frame :
    (∀ (g : Gauge) snap g', g.Snapshot false = some (snap, g') →
      g' = g ∧ g.Snapshot false = some (snap, g)) ∧
    (∀ (h : Histogram) snap h', h.Snapshot false = some (snap, h') →
      h' = h ∧ h.Snapshot false = some (snap, h)) ∧
    (∀ c : Counter, (c.Snapshot false).2 = c ∧
      (((c.Snapshot false).2).Snapshot false).1 = (c.Snapshot false).1) := by
  refine ⟨?_, ?_, ?_⟩
  · intro g snap g' heq
    obtain ⟨resv', hfin, hg'⟩ := gauge_snapshot_some_elim _ _ _ _ heq
    by_cases hv : g.resv.values = []
    · rw [finalizeSnapshot_empty _ _ _ _ hv] at hfin
      simp only [Option.some.injEq, Prod.mk.injEq] at hfin
      obtain ⟨_, hresv⟩ := hfin
      have hgg : g' = g := by
        obtain ⟨gp, gr, gl⟩ := g
        rw [hg', ← hresv]
        rfl
      exact ⟨hgg, by rw [hgg] at heq; exact heq⟩
    · obtain ⟨scores, hsc, hsnap, hresv⟩ :=
        finalizeSnapshot_some_elim _ _ _ _ _ _ hv hfin
      have hgg : g' = g := by rw [hg', hresv]; rfl
      exact ⟨hgg, by rw [hgg] at heq; exact heq⟩
  · intro h snap h' heq
    obtain ⟨resv', hfin, hh'⟩ := histogram_snapshot_some_elim _ _ _ _ heq
    by_cases hv : h.resv.values = []
    · rw [finalizeSnapshot_empty _ _ _ _ hv] at hfin
      simp only [Option.some.injEq, Prod.mk.injEq] at hfin
      obtain ⟨_, hresv⟩ := hfin
      have hgg : h' = h := by
        obtain ⟨hp, hr⟩ := h
        rw [hh', ← hresv]
      exact ⟨hgg, by rw [hgg] at heq; exact heq⟩
    · obtain ⟨scores, hsc, hsnap, hresv⟩ :=
        finalizeSnapshot_some_elim _ _ _ _ _ _ hv hfin
      have hgg : h' = h := by rw [hh', hresv]; rfl
      exact ⟨hgg, by rw [hgg] at heq; exact heq⟩
  · intro c
    exact ⟨rfl, rfl⟩

/-- Witness for C8: a gauge holding the single value 1, snapshotted
without reset, is returned unchanged along with the same snapshot. -/
theorem snapshot_false_frame_witness :
    ((NewGauge ⟨[]⟩).Record 0 1) = ((NewGauge ⟨[]⟩).Record 0 1) ∧
    ((NewGauge ⟨[]⟩).Record 0 1).Snapshot false =
      some (Snapshot.mk 1 1 1 1 [] 1, (NewGauge ⟨[]⟩).Record 0 1) :=
  snapshot_false_frame.1 ((NewGauge ⟨[]⟩).Record 0 1) (Snapshot.mk 1 1 1 1 [] 1)
    ((NewGauge ⟨[]⟩).Record 0 1)
    (by norm_num [Gauge.Record, Gauge.Snapshot, NewGauge,
      newRandomSample, defaultSampleSize, randomSample.record, finalizeSnapshot,
      sortFloat64s, List.insertionSort, List.orderedInsert, percentiles,
      zeroSnapshot])

theorem runCounter_eq_aux : ∀ (ops : List CtrOp) (n sum : ℤ),
    runCounter ⟨n, sum⟩ ops = runCounterMutex ⟨n, sum⟩ ops := by
  intro ops
  induction ops with
  | nil => intro n sum; rfl
  | cons op rest ih =>
    intro n sum
    cases op with
    | add d =>
      show runCounter ⟨n + 1, sum + d⟩ rest = runCounterMutex ⟨n + 1, sum + d⟩ rest
      exact ih (n + 1) (sum + d)
    | count =>
      show CtrOut.int sum :: runCounter ⟨n, sum⟩ rest =
        CtrOut.int sum :: runCounterMutex ⟨n, sum⟩ rest
      rw [ih n sum]
    | snapshot b =>
      cases b
      · show CtrOut.snap _ :: runCounter ⟨n, sum⟩ rest =
          CtrOut.snap _ :: runCounterMutex ⟨n, sum⟩ rest
        rw [ih n sum]
        rfl
      · show CtrOut.snap _ :: runCounter ⟨0, 0⟩ rest =
          CtrOut.snap _ :: runCounterMutex ⟨0, 0⟩ rest
        rw [ih 0 0]
        rfl

/-- C9: every sequential program of Add, Count, and Snapshot operations
observes exactly the same outputs from the atomic-operations Counter of
src/metrics.go and from the mutex-based Counter variant. -/
theorem counter_variants_equivalent (ops : List CtrOp) :
    runCounter NewCounter ops = runCounterMutex mutexVariant.NewCounter ops :=
  runCounter_eq_aux ops 0 0

/-- C6: a concrete interleaving of one Add(5) (two lock-free atomic
instructions) with two Snapshot(true) calls, valid for the program
orders of the source, in which the first snapshot reports N = 1 with
Sum = 0 and the delta is erased by the clear: the Add is neither fully
in the first snapshot (which would be (1, 5)) nor fully in the second
((0, 0) then (1, 5)); it is split and its sum is lost. -/
theorem counter_add_snapshot_race :
    interleaves (ctrAddProg 5) (ctrSnapProg ++ ctrSnapProg) raceSchedule = true ∧
    (ctrExec ctrInit raceSchedule).snaps = [(1, 0), (0, 0)] ∧
    ¬ ([((1:ℤ), (0:ℤ)), (0, 0)] = [((1:ℤ), (5:ℤ)), ((0:ℤ), (0:ℤ))] ∨
       [((1:ℤ), (0:ℤ)), (0, 0)] = [((0:ℤ), (0:ℤ)), ((1:ℤ), (5:ℤ))]) := by
  decide

end metrics
